/-
  Spec2Proof.lean — a verification development for the wytch terminal widget
  toolkit (src/wytch/view.py).

  The layout, focus and value-change operations of the view layer are shallowly
  embedded as executable Lean functions: Python integers become Int/Nat, lists
  become List, mutation becomes explicit state passing, and raised exceptions
  become Except.  Each section names the Python method it embeds.
-/
import Mathlib

namespace Wytch

/-! ## Python numeric / sequence primitives used by view.py -/

/-- Python `round(a / b)` for integers `a` and positive `b`, modelled as exact
rational rounding half-to-even (banker's rounding).  `view.py` uses it as
`round(remh / anyc)` in `Vertical.recalc` / `Horizontal.recalc`. -/
def pyRound (a : Int) (b : Int) : Int :=
  let q := Int.fdiv a b
  let r := a - q * b
  if 2 * r < b then q
  else if b < 2 * r then q + 1
  else if q % 2 = 0 then q else q + 1

/-- Python sequence index resolution: an index `i` into a sequence of length
`n` resolves to `i` when `0 ≤ i < n`, to `n + i` when `-n ≤ i < 0`, and
raises `IndexError` (here: `none`) otherwise. -/
def pyResolve (n : Nat) (i : Int) : Option Nat :=
  if 0 ≤ i ∧ i < (n : Int) then some i.toNat
  else if -(n : Int) ≤ i ∧ i < 0 then some ((n : Int) + i).toNat
  else none

/-- Exceptions raised by `view.py` (`NotImplementedError` in `View.focused`,
`IndexError` from out-of-range list indexing in `Grid.set`).  The spec's error
taxonomy calls the former `InvalidOperation`. -/
inductive PyError where
  | notImplementedError (msg : String)
  | indexError
deriving DecidableEq, Repr

/-! ## Geometry: canvas.SubCanvas as assigned by the layout passes

Only the rectangle data of a sub-canvas matters for the layout claims:
`canvas.SubCanvas(parent, x, y, width, height)`. -/

structure SubCanvas where
  x : Int
  y : Int
  w : Int
  h : Int
deriving DecidableEq, Repr

/-- The per-child data the linear layouts read: `c.size` (minimum width and
height, a pair of naturals in the source) and the two stretch flags. -/
structure ViewSize where
  width : Nat
  height : Nat
  hstretch : Bool
  vstretch : Bool
deriving DecidableEq, Repr

/-! ## Vertical.recalc / Horizontal.recalc (view.py lines 414-431 / 447-464)

Both methods run the same loop over one axis; `stackLoop`/`stackRecalc` embed
that loop over (extent, stretch) pairs, and the two `recalc` wrappers apply it
to the vertical resp. horizontal axis, producing the `SubCanvas` each child is
assigned (`none` for a child skipped by the `if ch == 0: continue` line). -/

/-- The per-child body of the loop in `Vertical.recalc` (identically
`Horizontal.recalc`): state is the remaining budget `remh` and the running
offset `h`; a child of extent 0 is skipped (`continue`), a stretching child is
granted `perc` if `remh > perc` else all of `remh`, others get their extent. -/
def stackLoop (perc : Int) : Int → Int → List (Nat × Bool) → List (Option (Int × Int))
  | _, _, [] => []
  | remh, pos, (sz, st) :: rest =>
    if sz = 0 then none :: stackLoop perc remh pos rest
    else if st then
      let g := if perc < remh then perc else remh
      let e := g + (sz : Int)
      some (pos, e) :: stackLoop perc (remh - g) (pos + e) rest
    else some (pos, (sz : Int)) :: stackLoop perc remh (pos + (sz : Int)) rest

/-- `anyc = sum(c.vstretch ...)`, `remh = canvas.height - sum(c.size[1] ...)`,
`perc = round(remh / anyc) if anyc else 0`, then the walk. -/
def stackRecalc (extent : Nat) (cs : List (Nat × Bool)) : List (Option (Int × Int)) :=
  let anyc := (cs.filter (fun c => c.2)).length
  let remh : Int := (extent : Int) - (cs.map (fun c => (c.1 : Int))).sum
  let perc := if anyc ≠ 0 then pyRound remh anyc else 0
  stackLoop perc remh 0 cs

/-- `Vertical.recalc`: each non-skipped child gets
`SubCanvas(self.canvas, 0, h, self.canvas.width, ch)`. -/
def Vertical.recalc (canvasW canvasH : Nat) (cs : List ViewSize) : List (Option SubCanvas) :=
  (stackRecalc canvasH (cs.map (fun c => (c.height, c.vstretch)))).map
    (Option.map (fun pe => ⟨0, pe.1, (canvasW : Int), pe.2⟩))

/-- `Horizontal.recalc`: each non-skipped child gets
`SubCanvas(self.canvas, w, 0, cw, self.canvas.height)`. -/
def Horizontal.recalc (canvasW canvasH : Nat) (cs : List ViewSize) : List (Option SubCanvas) :=
  (stackRecalc canvasW (cs.map (fun c => (c.width, c.hstretch)))).map
    (Option.map (fun pe => ⟨pe.1, 0, pe.2, (canvasH : Int)⟩))

/-- Total extra vertical extent granted to stretching children by a
`Vertical.recalc` result: for a `vstretch` child with assigned canvas, its
assigned height minus its minimum height (a skipped child got nothing). -/
def verticalGranted : List ViewSize → List (Option SubCanvas) → Int
  | c :: cs, r :: rs =>
    (if c.vstretch then (match r with | some sc => sc.h - (c.height : Int) | none => 0) else 0)
      + verticalGranted cs rs
  | _, _ => 0

/-- Total extra horizontal extent granted to stretching children by a
`Horizontal.recalc` result. -/
def horizontalGranted : List ViewSize → List (Option SubCanvas) → Int
  | c :: cs, r :: rs =>
    (if c.hstretch then (match r with | some sc => sc.w - (c.width : Int) | none => 0) else 0)
      + horizontalGranted cs rs
  | _, _ => 0

/-- Extra extent granted, on the `stackLoop` pair level. -/
def stackGranted : List (Nat × Bool) → List (Option (Int × Int)) → Int
  | c :: cs, r :: rs =>
    (if c.2 then (match r with | some pe => pe.2 - (c.1 : Int) | none => 0) else 0)
      + stackGranted cs rs
  | _, _ => 0

/-! ## View.focused setter (view.py lines 87-101)

State of one standalone `View` relevant to the setter: the `_focused` flag and
the `focusable` flag.  The setter either raises, or returns the new state
together with the callbacks it invoked, in invocation order (`onfocus`, then —
when a parent exists — `parent.onchildfocused(self)`; or `onunfocus`). -/

structure ViewFocusState where
  focused : Bool
  focusable : Bool
deriving DecidableEq, Repr

inductive FocusCallback where
  | onfocus
  | onchildfocused
  | onunfocus
deriving DecidableEq, Repr

/-- `View.focused.setter`: early-return when the value is unchanged; raise
`NotImplementedError` when focusing an unfocusable view; otherwise flip the
flag and run the callbacks. -/
def View.setFocused (s : ViewFocusState) (f : Bool) (hasParent : Bool) :
    Except PyError (ViewFocusState × List FocusCallback) :=
  if s.focused = f then .ok (s, [])
  else if f ∧ ¬s.focusable then .error (.notImplementedError "This view is not focusable")
  else
    let s' : ViewFocusState := { s with focused := f }
    if f then .ok (s', .onfocus :: (if hasParent then [.onchildfocused] else []))
    else .ok (s', [.onunfocus])

/-! ## ValueWidget.value setter (view.py lines 660-667) -/

/-- `ValueWidget.value.setter`: state is the stored `_value`; the result is the
new value, the `ValueEvent`s fired (as (new, old) pairs) and whether
`update()` was called. -/
def ValueWidget.setValue {α : Type} [DecidableEq α] (cur v : α) :
    α × List (α × α) × Bool :=
  if cur = v then (cur, [], false)
  else (v, [(v, cur)], true)

/-! ## ContainerView.onfocus / onchildfocused (view.py lines 181-187, 194-201)

A container with plain leaf children (their `onfocus`/`onunfocus` are the
`View` no-ops).  `onfocus` walks the children in order and assigns
`c.focused = True` to every child that is focusable and displayed; each such
assignment, via the `View.focused` setter and `onchildfocused`, defocuses all
other children.  Children are identified by position (Python compares the
member objects by identity). -/

structure FChild where
  focusable : Bool
  display : Bool
  focused : Bool
deriving DecidableEq, Repr, Inhabited

/-- Effect of `c.focused = True` on the child list of `c`'s parent, for the
child at index `i`: no-op if already focused (setter early return), otherwise
the child's flag is set and `ContainerView.onchildfocused` defocuses every
other focused child. -/
def focusChildAt (cs : List FChild) (i : Nat) : List FChild :=
  if (cs.getD i default).focused then cs
  else cs.mapIdx (fun j c =>
    if j = i then { c with focused := true } else { c with focused := false })

/-- `ContainerView.onfocus`: `for c in self.children: if c.focusable and
c.display: c.focused = True` — note there is no break/return after the first
eligible child. -/
def ContainerView.onfocus (cs : List FChild) : List FChild :=
  (List.range cs.length).foldl (fun acc i =>
    if (acc.getD i default).focusable ∧ (acc.getD i default).display
    then focusChildAt acc i else acc) cs

/-! ## Radio.Group.select (view.py lines 991-1000)

A group is its members' boolean values in list order (the Python `Group` is a
`list` of `Radio` widgets); `selected` is the first member whose value is
true.  `select` walks the members: every other member's value is set false, a
false target is set true.  Setting a Radio's value true fires its "value"
event, whose handler (`Radio._onchange`, filtered on `new = True`) re-enters
`group.select` — the model makes that re-entrant call explicitly, bounded by a
fuel that is never exhausted because the re-entrant call finds the target
already true and so never recurses further.  Group-level `ValueEvent`s are
recorded as (new selected, old selected) index pairs. -/

def Radio.Group.selected (vals : List Bool) : Option Nat :=
  vals.findIdx? (fun v => v)

/-- The `for c in self:` loop of `select`, over member indices `js`:
`if c != radio: c.value = False elif not c.value: c.value = True`, the latter
re-entering `select` through the radio's value handler (`recur`). -/
def selectLoop (recur : List Bool → List Bool × List (Option Nat × Option Nat)) (i : Nat) :
    List Nat → List Bool → List Bool × List (Option Nat × Option Nat)
  | [], vals => (vals, [])
  | j :: js, vals =>
    if j ≠ i then selectLoop recur i js (vals.set j false)
    else if ¬(vals.getD j false) then
      let v1 := vals.set j true
      let r1 := recur v1
      let r2 := selectLoop recur i js r1.1
      (r2.1, r1.2 ++ r2.2)
    else selectLoop recur i js vals

/-- `Radio.Group.select` with explicit re-entrancy fuel: remember the old
selection, run the member loop, and fire one group `ValueEvent` unless the
selection is unchanged. -/
def Radio.Group.selectFuel : Nat → List Bool → Nat → List Bool × List (Option Nat × Option Nat)
  | 0, vals, _ => (vals, [])
  | fuel + 1, vals, i =>
    let old := Radio.Group.selected vals
    let r := selectLoop (fun v => Radio.Group.selectFuel fuel v i) i
      (List.range vals.length) vals
    if Radio.Group.selected r.1 = old then r
    else (r.1, r.2 ++ [(Radio.Group.selected r.1, old)])

/-- `Radio.Group.select`.  Fuel 2 is exact: the one re-entrant call observes
the target member already true and returns without recursing (proved below in
the C6 development). -/
def Radio.Group.select (vals : List Bool) (i : Nat) :
    List Bool × List (Option Nat × Option Nat) :=
  Radio.Group.selectFuel 2 vals i

/-- The member values after a successful `select i` on a group of `n`
members: true exactly at `i`. -/
def onlyTrueAt (n i : Nat) : List Bool :=
  (List.range n).map (fun j => decide (j = i))

example : Radio.Group.select [true, false] 0 = ([true, false], []) := by decide
example : Radio.Group.select [false, true] 0 = ([true, false], [(some 0, some 1)]) := by decide
example : Radio.Group.select [false, false, false] 1
    = ([false, true, false], [(some 1, none)]) := by decide
example : Radio.Group.select [true, false, true] 1
    = ([false, true, false], [(some 1, some 0)]) := by decide
example : ContainerView.onfocus [⟨true, true, false⟩, ⟨true, true, false⟩]
    = [⟨true, true, false⟩, ⟨true, true, true⟩] := by decide

/-! ## Grid (view.py lines 474-587)

`Grid.Cell` carries the child (here: an id), its spans, and — for the sizing
pass — the child's declared minimum size.  The grid table is a
`height × width` list of optional cells, exactly `self.grid`. -/

structure GridCell where
  childId : Nat
  colspan : Nat
  rowspan : Nat
  childW : Nat
  childH : Nat
deriving DecidableEq, Repr

/-- `l[j] += a`, a no-op beyond the end of the list (all uses below stay in
range). -/
def bumpAt (l : List Nat) (j a : Nat) : List Nat :=
  l.set j (l.getD j 0 + a)

/-- First inner loop of a `Grid.precalc` distribution step: evenly grow all
`span` columns starting at `i` by `spl`. -/
def growEven (cws : List Nat) (i span spl : Nat) : List Nat :=
  (List.range span).foldl (fun acc oc => bumpAt acc (i + oc) spl) cws

/-- Second inner loop: walk `ocs` (the offsets `span-1, span-2, …, 1`) and,
while some remainder `over` is left, grow that column by one. -/
def growRem (i : Nat) : List Nat → Nat → List Nat → List Nat
  | ocs, over, cws =>
    match ocs with
    | [] => cws
    | oc :: rest => if over = 0 then cws else growRem i rest (over - 1) (bumpAt cws (i + oc) 1)

/-- The offsets visited by the remainder loop: Python's
`range(a, 0, -1)`, i.e. `[a, a-1, …, 1]`; the loop uses `a = colspan - 1`. -/
def remOffsets : Nat → List Nat
  | 0 => []
  | a + 1 => (a + 1) :: remOffsets a

/-- `tot`: the sum of the currently allocated widths of the `span` columns
starting at `i`. -/
def sumSpan (cws : List Nat) (i span : Nat) : Nat :=
  ((List.range span).map (fun oc => cws.getD (i + oc) 0)).sum

/-- One distribution step of `Grid.precalc` for a cell spanning `span`
columns starting at column `i` whose child wants `w`: if the allocated total
is short, split the shortfall by floor division, then hand the remainder out
one unit at a time starting from the rightmost spanned column. -/
def Grid.distribute (cws : List Nat) (i span w : Nat) : List Nat :=
  let tot := sumSpan cws i span
  if tot < w then
    let over := w - tot
    let spl := over / span
    growRem i (remOffsets (span - 1)) (over - span * spl) (growEven cws i span spl)
  else cws

/-- The column-width pass of `Grid.precalc` (view.py lines 509-531): starting
from `[0] * width`, for each colspan `1, …, width`, for each column `i` (the
`zip(*self.grid)` transpose), for each cell of that column with exactly that
colspan, distribute its width shortfall.  The row-height pass (lines 532-555)
is the same algorithm over rows. -/
def Grid.precalcCws (width : Nat) (grid : List (List (Option GridCell))) : List Nat :=
  ((List.range width).map (· + 1)).foldl (fun cws colspan =>
    grid.transpose.enum.foldl (fun cws ic =>
      ic.2.foldl (fun cws och =>
        match och with
        | none => cws
        | some ch => if ch.colspan = colspan then Grid.distribute cws ic.1 colspan ch.childW
                     else cws) cws) cws)
    (List.replicate width 0)

/-- State of a `Grid` as far as `set`/`add_child`/`remove_child` mutate it:
the declared dimensions, the cell table, the children list (ids, in insertion
order) and the dirty flag. -/
structure GridState where
  width : Nat
  height : Nat
  grid : List (List (Option GridCell))
  children : List Nat
  dirty : Bool
deriving DecidableEq, Repr

/-- `Grid.set(x, y, child, colspan=1, rowspan=1)` (view.py lines 501-505):
`self.grid[y][x]` is read with Python indexing (negative indices wrap, truly
out-of-range ones raise `IndexError`); an existing occupant is removed via
`remove_child`, then the cell is stored and the child attached via
`add_child` (which appends to `children` and sets the dirty flag). -/
def Grid.set (g : GridState) (x y : Int) (child : GridCell) :
    Except PyError GridState :=
  match pyResolve g.grid.length y with
  | none => .error .indexError
  | some yy =>
    let row := g.grid.getD yy []
    match pyResolve row.length x with
    | none => .error .indexError
    | some xx =>
      let g1 : GridState :=
        match row.getD xx none with
        | some old => { g with children := g.children.erase old.childId }
        | none => g
      let row' := (g1.grid.getD yy []).set xx (some child)
      .ok { g1 with
              grid := g1.grid.set yy row'
              children := g1.children ++ [child.childId]
              dirty := true }

example :
    Grid.precalcCws 2 [[some ⟨0, 2, 1, 10, 1⟩, none], [none, none]] = [5, 5] := by decide
example :
    Grid.precalcCws 2 [[some ⟨0, 2, 1, 11, 1⟩, none], [none, none]] = [5, 6] := by decide
example :
    Grid.set ⟨2, 2, [[none, none], [none, none]], [], false⟩ (-1) (-1) ⟨7, 1, 1, 0, 0⟩
      = .ok ⟨2, 2, [[none, none], [none, some ⟨7, 1, 1, 0, 0⟩]], [7], true⟩ := by rfl
example :
    Grid.set ⟨2, 2, [[none, none], [none, none]], [], false⟩ 2 0 ⟨7, 1, 1, 0, 0⟩
      = .error .indexError := by rfl

/-! ## ContainerView.recalc and the dirty machinery (view.py 278-285, 314-322)

A tree of views: leaves are plain `View`s (their `recalc` is a no-op), inner
nodes are base `ContainerView`s.  Each node carries its own `_dirty` flag, its
`zindex` and its currently assigned canvas.  `dirty` on a container is
`self._dirty or any(c.dirty)`; setting it propagates to all children.
Assigning a canvas (the `View.canvas` setter) stores it and calls `recalc`;
the container `recalc`, when dirty, sorts the children by `zindex` (Python's
stable sort), assigns each child the container's own canvas — recursively
triggering the child's `recalc` — and finally clears the dirty flag through
the propagating setter. -/

structure Rect where
  x : Nat
  y : Nat
  w : Nat
  h : Nat
deriving DecidableEq, Repr

inductive VTree where
  | leaf (dirty : Bool) (zindex : Int) (cv : Option Rect)
  | node (dirty : Bool) (zindex : Int) (cv : Option Rect) (children : List VTree)

def VTree.zindex : VTree → Int
  | .leaf _ z _ => z
  | .node _ z _ _ => z

def VTree.canvasOf : VTree → Option Rect
  | .leaf _ _ c => c
  | .node _ _ c _ => c

def VTree.childrenOf : VTree → List VTree
  | .leaf _ _ _ => []
  | .node _ _ _ ch => ch

mutual
/-- The `dirty` property: a leaf's own flag; for a container,
`self._dirty or any(c.dirty for c in self.children)`. -/
def VTree.dirtyProp : VTree → Bool
  | .leaf d _ _ => d
  | .node d _ _ ch => d || VTree.anyDirty ch
def VTree.anyDirty : List VTree → Bool
  | [] => false
  | t :: ts => VTree.dirtyProp t || VTree.anyDirty ts
end

mutual
/-- The `dirty` setter: store the flag, and on a container propagate it to
every child. -/
def VTree.setDirty (d : Bool) : VTree → VTree
  | .leaf _ z c => .leaf d z c
  | .node _ z c ch => .node d z c (VTree.setDirtyList d ch)
def VTree.setDirtyList (d : Bool) : List VTree → List VTree
  | [] => []
  | t :: ts => VTree.setDirty d t :: VTree.setDirtyList d ts
end

example : VTree.dirtyProp (.node false 0 none [.leaf true 0 none]) = true := by decide

/-- The `View.canvas` setter (view.py 107-110) together with the `recalc` it
triggers.  On a leaf, `View.recalc` is a no-op, so only the canvas is stored.
On a container (`ContainerView.recalc`, view.py 278-285): when the `dirty`
property holds, children are sorted by `zindex` (`self.children.sort`,
stable), each child is assigned the container's own canvas (recursing), and
`self.dirty = False` clears the flag on the node and, through the propagating
setter, on all children. -/
def VTree.setCanvas (cv : Rect) : VTree → VTree
  | .leaf d z _ => .leaf d z (some cv)
  | .node d z _ ch =>
    if d || VTree.anyDirty ch then
      let sorted := List.insertionSort (fun a b => VTree.zindex a ≤ VTree.zindex b) ch
      let ch2 := sorted.attach.map (fun x => VTree.setCanvas cv x.1)
      .node false z (some cv) (VTree.setDirtyList false ch2)
    else
      .node d z (some cv) ch
termination_by t => sizeOf t
decreasing_by
  rename_i d cvOld ch _h
  have hx : x.1 ∈ ch := by
    have hperm := List.perm_insertionSort (fun a b => VTree.zindex a ≤ VTree.zindex b) ch
    exact hperm.mem_iff.mp x.2
  have h1 : sizeOf x.1 < sizeOf ch := List.sizeOf_lt_of_mem hx
  simp only [VTree.node.sizeOf_spec]
  omega

/-- `r` lies inside `s`: the containment used to state that child canvases do
not exceed the parent canvas. -/
def Rect.inside (r s : Rect) : Bool :=
  decide (s.x ≤ r.x) && decide (s.y ≤ r.y) &&
  decide (r.x + r.w ≤ s.x + s.w) && decide (r.y + r.h ≤ s.y + s.h)

/-- The canvases of a view's children, in child order. -/
def VTree.childCanvases (t : VTree) : List (Option Rect) :=
  t.childrenOf.map VTree.canvasOf

/-! # Theorems

One theorem per claim of the specification (with witnesses and, where a claim
fails on the code, a counterexample), preceded by the helper lemmas they
share. -/

theorem rect_inside_self (r : Rect) : Rect.inside r r = true := by
  simp [Rect.inside]

/-! ## C4 — focusing an unfocusable view fails -/

/-- C4: for every View with `focusable = false` and `focused = false`,
assigning `focused = true` raises (the spec's `InvalidOperation`, realised as
Python's `NotImplementedError`); the raise happens before any mutation or
callback, so the view's state is unchanged and no focus callback runs. -/
theorem focus_unfocusable_fails (s : ViewFocusState) (hasParent : Bool)
    (hfocusable : s.focusable = false) (hfocused : s.focused = false) :
    View.setFocused s true hasParent
      = .error (.notImplementedError "This view is not focusable") := by
  simp [View.setFocused, hfocusable, hfocused]

theorem focus_unfocusable_fails_witness :
    (⟨false, false⟩ : ViewFocusState).focusable = false ∧
    (⟨false, false⟩ : ViewFocusState).focused = false ∧
    View.setFocused ⟨false, false⟩ true true
      = .error (.notImplementedError "This view is not focusable") :=
  ⟨rfl, rfl, focus_unfocusable_fails ⟨false, false⟩ true rfl rfl⟩

/-! ## C10 — assigning `focused` its current value is a no-op -/

/-- C10: assigning the `focused` flag its current value returns before the
focusability check and before any mutation: no error even when
`focusable = false`, no callback, state unchanged. -/
theorem focus_self_assign_noop (s : ViewFocusState) (f hasParent : Bool)
    (h : s.focused = f) :
    View.setFocused s f hasParent = .ok (s, []) := by
  simp [View.setFocused, h]

theorem focus_self_assign_noop_witness :
    (⟨true, false⟩ : ViewFocusState).focused = true ∧
    View.setFocused ⟨true, false⟩ true true = .ok (⟨true, false⟩, []) :=
  ⟨rfl, focus_self_assign_noop ⟨true, false⟩ true true rfl⟩

/-! ## C9 — value-change idempotence -/

/-- C9: assigning a `ValueWidget`'s value its current value produces no
`ValueEvent`, no `update()` call, and leaves the stored value unchanged. -/
theorem value_set_idempotent {α : Type} [DecidableEq α] (cur v : α)
    (h : cur = v) :
    ValueWidget.setValue cur v = (cur, [], false) := by
  simp [ValueWidget.setValue, h]

theorem value_set_idempotent_witness :
    (5 : Nat) = 5 ∧ ValueWidget.setValue (5 : Nat) 5 = (5, [], false) :=
  ⟨rfl, value_set_idempotent 5 5 rfl⟩

/-! ## C3 — Vertical 2/0/3 scenario

The claim expects child heights 2, 5, 3 on a canvas of height 10.  The code's
`if ch == 0: continue` skips the zero-height middle child before the stretch
branch is reached, so that child is never assigned a canvas at all; the outer
children get exactly their minimum heights. -/

/-- C3 counterexample: the three children do NOT receive canvases of heights
2, 5 and 3 — the middle (stretching, zero-height) child receives none. -/
theorem vertical_scenario_counterexample :
    ((Vertical.recalc 4 10 [⟨4, 2, false, false⟩, ⟨4, 0, false, true⟩, ⟨4, 3, false, false⟩]).map
        (Option.map SubCanvas.h)) ≠ [some 2, some 5, some 3] := by
  decide

/-- C3 (amended): one recalc of that Vertical assigns the first child a
canvas of height 2 at offset 0 and the third a canvas of height 3 at offset
2; the zero-height middle child is skipped entirely and is assigned no
canvas. -/
theorem vertical_scenario_amended :
    Vertical.recalc 4 10 [⟨4, 2, false, false⟩, ⟨4, 0, false, true⟩, ⟨4, 3, false, false⟩]
      = [some ⟨0, 0, 4, 2⟩, none, some ⟨0, 2, 4, 3⟩] := by
  decide

/-! ## C5 — ContainerView.onfocus focuses the FIRST eligible child?

The loop in `ContainerView.onfocus` has no break or return (unlike
`Grid.onfocus`), so every focusable+displayed child is focused in turn and
each focusing defocuses the previous one: the LAST eligible child ends up
focused, contradicting both the claim and the code's own comment
`# Focus first focusable child`. -/

/-- C5: with two focusable, displayed, unfocused children, `onfocus` leaves
the second (last) child focused and the first unfocused. -/
theorem onfocus_focuses_last_child :
    ContainerView.onfocus [⟨true, true, false⟩, ⟨true, true, false⟩]
        = [⟨true, true, false⟩, ⟨true, true, true⟩] ∧
    (ContainerView.onfocus [⟨true, true, false⟩, ⟨true, true, false⟩]).getD 0 default
        = ⟨true, true, false⟩ := by
  decide

/-! ## C8 — Grid.set on out-of-range coordinates

`Grid.set` performs no range check of its own: it indexes `self.grid[y][x]`
directly.  A coordinate beyond the Python-valid index range raises an
uncaught `IndexError` (not the spec's `InvalidOperation`), and a NEGATIVE
in-range coordinate wraps around (Python negative indexing) and silently
attaches the child — refuting the claim. -/

theorem pyResolve_some_lt {n : Nat} {i : Int} {k : Nat}
    (h : pyResolve n i = some k) : k < n := by
  unfold pyResolve at h
  split at h
  · rename_i hr
    simp only [Option.some.injEq] at h
    omega
  · split at h
    · rename_i hr
      simp only [Option.some.injEq] at h
      omega
    · simp at h

/-- C8 counterexample: on an empty `Grid(2,2)`, `set(-1, -1, child)` — both
coordinates outside `0 ≤ x < width`, `0 ≤ y < height` — does NOT fail: it
succeeds, attaches the child, and stores the cell at the wrapped position
(1, 1). -/
theorem grid_set_negative_counterexample :
    Grid.set ⟨2, 2, [[none, none], [none, none]], [], false⟩ (-1) (-1) ⟨7, 1, 1, 0, 0⟩
        = .ok ⟨2, 2, [[none, none], [none, some ⟨7, 1, 1, 0, 0⟩]], [7], true⟩ ∧
    7 ∈ (⟨2, 2, [[none, none], [none, some ⟨7, 1, 1, 0, 0⟩]], [7], true⟩ : GridState).children :=
  ⟨rfl, by decide⟩

/-- C8 (amended): `Grid.set` follows Python list-indexing semantics.  When
`y` is an invalid Python index for the rows (`y < -height` or `y ≥ height`),
or `y` is valid but `x` is invalid for the columns, the call raises an
uncaught `IndexError` (not the spec's `InvalidOperation`) and no state is
produced; when both coordinates are valid Python indices — which includes
negative coordinates down to `-height`/`-width`, wrapping to
`height + y` / `width + x` — the call succeeds, stores the cell at the
resolved position and attaches the child. -/
theorem grid_set_python_indexing (g : GridState) (x y : Int) (child : GridCell)
    (hh : g.grid.length = g.height)
    (hw : ∀ row ∈ g.grid, row.length = g.width) :
    (pyResolve g.height y = none → Grid.set g x y child = .error .indexError)
    ∧ (∀ yy, pyResolve g.height y = some yy → pyResolve g.width x = none →
        Grid.set g x y child = .error .indexError)
    ∧ (∀ yy xx, pyResolve g.height y = some yy → pyResolve g.width x = some xx →
        ∃ g' : GridState, Grid.set g x y child = .ok g'
          ∧ child.childId ∈ g'.children
          ∧ (g'.grid.getD yy []).getD xx none = some child) := by
  have hrow : ∀ yy : Nat, yy < g.grid.length → (g.grid.getD yy []).length = g.width := by
    intro yy hyy
    apply hw
    rw [List.getD_eq_getElem?_getD, List.getElem?_eq_getElem hyy]
    exact List.getElem_mem hyy
  refine ⟨?_, ?_, ?_⟩
  · intro h
    unfold Grid.set
    rw [hh, h]
  · intro yy h1 h2
    unfold Grid.set
    rw [hh, h1]
    have hlt : yy < g.grid.length := hh ▸ pyResolve_some_lt h1
    dsimp only
    rw [hrow yy hlt, h2]
  · intro yy xx h1 h2
    have hlt : yy < g.grid.length := hh ▸ pyResolve_some_lt h1
    have hxlt : xx < (g.grid.getD yy []).length := by
      rw [hrow yy hlt]
      exact pyResolve_some_lt h2
    unfold Grid.set
    rw [hh, h1]
    dsimp only
    rw [hrow yy hlt, h2]
    dsimp only
    cases hocc : (g.grid.getD yy []).getD xx none with
    | none =>
      dsimp only
      refine ⟨_, rfl, ?_, ?_⟩
      · exact List.mem_append_right _ (List.mem_singleton_self _)
      · dsimp only
        simp only [List.getD_eq_getElem?_getD]
        rw [List.getElem?_set_self hlt]
        simp only [Option.getD_some]
        rw [List.getElem?_set_self (by simpa [List.getD_eq_getElem?_getD] using hxlt)]
        simp only [Option.getD_some]
    | some old =>
      dsimp only
      refine ⟨_, rfl, ?_, ?_⟩
      · exact List.mem_append_right _ (List.mem_singleton_self _)
      · dsimp only
        simp only [List.getD_eq_getElem?_getD]
        rw [List.getElem?_set_self hlt]
        simp only [Option.getD_some]
        rw [List.getElem?_set_self (by simpa [List.getD_eq_getElem?_getD] using hxlt)]
        simp only [Option.getD_some]

theorem grid_set_python_indexing_witness :
    pyResolve 2 (-1) = some 1 ∧
    ∃ g' : GridState,
      Grid.set ⟨2, 2, [[none, none], [none, none]], [], false⟩ (-1) (-1) ⟨7, 1, 1, 0, 0⟩
          = .ok g'
        ∧ 7 ∈ g'.children
        ∧ (g'.grid.getD 1 []).getD 1 none = some ⟨7, 1, 1, 0, 0⟩ :=
  ⟨by decide,
    (grid_set_python_indexing ⟨2, 2, [[none, none], [none, none]], [], false⟩
        (-1) (-1) ⟨7, 1, 1, 0, 0⟩ rfl (by decide)).2.2 1 1 (by decide) (by decide)⟩

/-! ## C2 — ContainerView.recalc clears dirty and assigns child canvases -/

mutual
theorem dirtyProp_setDirty_false : ∀ t : VTree, VTree.dirtyProp (VTree.setDirty false t) = false
  | .leaf _ z c => rfl
  | .node _ z c ch => by
    simp [VTree.setDirty, VTree.dirtyProp, anyDirty_setDirtyList_false ch]
theorem anyDirty_setDirtyList_false :
    ∀ l : List VTree, VTree.anyDirty (VTree.setDirtyList false l) = false
  | [] => rfl
  | t :: ts => by
    simp [VTree.setDirtyList, VTree.anyDirty, dirtyProp_setDirty_false t,
      anyDirty_setDirtyList_false ts]
end

theorem canvasOf_setDirty (d : Bool) (t : VTree) :
    VTree.canvasOf (VTree.setDirty d t) = VTree.canvasOf t := by
  cases t <;> rfl

theorem setDirtyList_eq_map (d : Bool) (l : List VTree) :
    VTree.setDirtyList d l = l.map (VTree.setDirty d) := by
  induction l with
  | nil => rfl
  | cons t ts ih => simp [VTree.setDirtyList, ih]

theorem canvasOf_setCanvas (cv : Rect) (t : VTree) :
    VTree.canvasOf (VTree.setCanvas cv t) = some cv := by
  cases t with
  | leaf d z c => simp [VTree.setCanvas, VTree.canvasOf]
  | node d z c ch =>
    rw [VTree.setCanvas]
    split <;> rfl

/-- C2: a base `ContainerView` whose `dirty` property reads true, holding any
children, when assigned a canvas `cv` performs one `recalc`: afterwards the
`dirty` property reads false, every child has been assigned exactly the
parent's canvas `cv` (in particular the union of the children's extents
equals, hence does not exceed, the parent canvas), and each child canvas lies
inside `cv`. -/
theorem container_recalc_spec (dz : Bool) (z : Int) (cv0 : Option Rect)
    (ch : List VTree) (cv : Rect)
    (hd : VTree.dirtyProp (.node dz z cv0 ch) = true) :
    VTree.dirtyProp (VTree.setCanvas cv (.node dz z cv0 ch)) = false
    ∧ VTree.childCanvases (VTree.setCanvas cv (.node dz z cv0 ch))
        = List.replicate ch.length (some cv)
    ∧ (VTree.childCanvases (VTree.setCanvas cv (.node dz z cv0 ch))).all
        (fun oc => match oc with | some r => Rect.inside r cv | none => false) = true := by
  have hcond : (dz || VTree.anyDirty ch) = true := by
    simpa [VTree.dirtyProp] using hd
  rw [VTree.setCanvas]
  rw [if_pos hcond]
  refine ⟨?_, ?_, ?_⟩
  · simp only [VTree.dirtyProp, Bool.false_or]
    exact anyDirty_setDirtyList_false _
  · rw [VTree.childCanvases]
    simp only [VTree.childrenOf]
    rw [setDirtyList_eq_map, List.map_map, List.map_map]
    have : (VTree.canvasOf ∘ VTree.setDirty false) ∘
        (fun x : {a // a ∈ List.insertionSort
            (fun a b => VTree.zindex a ≤ VTree.zindex b) ch} => VTree.setCanvas cv x.1)
        = fun _ => some cv := by
      funext x
      simp [Function.comp, canvasOf_setDirty, canvasOf_setCanvas]
    rw [this, List.map_const', List.length_attach, List.length_insertionSort]
  · rw [VTree.childCanvases]
    simp only [VTree.childrenOf]
    rw [List.all_eq_true]
    intro oc hmem
    rw [setDirtyList_eq_map, List.map_map, List.map_map] at hmem
    rcases List.mem_map.mp hmem with ⟨x, _, hx⟩
    have : oc = some cv := by
      rw [← hx]
      simp [Function.comp, canvasOf_setDirty, canvasOf_setCanvas]
    rw [this]
    exact rect_inside_self cv

theorem container_recalc_spec_witness :
    VTree.dirtyProp (.node true 0 none [.leaf false 2 none, .leaf true 1 none]) = true
    ∧ (VTree.dirtyProp (VTree.setCanvas ⟨0, 0, 8, 3⟩
          (.node true 0 none [.leaf false 2 none, .leaf true 1 none])) = false
       ∧ VTree.childCanvases (VTree.setCanvas ⟨0, 0, 8, 3⟩
          (.node true 0 none [.leaf false 2 none, .leaf true 1 none]))
          = List.replicate 2 (some ⟨0, 0, 8, 3⟩)
       ∧ (VTree.childCanvases (VTree.setCanvas ⟨0, 0, 8, 3⟩
          (.node true 0 none [.leaf false 2 none, .leaf true 1 none]))).all
          (fun oc => match oc with
            | some r => Rect.inside r ⟨0, 0, 8, 3⟩ | none => false) = true) :=
  ⟨by decide,
    container_recalc_spec true 0 none [.leaf false 2 none, .leaf true 1 none]
      ⟨0, 0, 8, 3⟩ (by decide)⟩

/-! ## C1 — stretch distribution sums exactly to the remaining budget?

The loop grants `perc = round(remh / anyc)` to a stretching child while
`remh > perc` and only hands over the whole remainder once `remh ≤ perc`.
When `n * round(R / n) < R` (e.g. `R = 10`, `n = 3`, `perc = 3`) the walk
ends with a positive leftover, and a stretching child of extent 0 is skipped
before the stretch branch, receiving nothing.  So the total granted can fall
short of `R`; it never overshoots. -/

theorem pyRound_nonneg {a b : Int} (ha : 0 ≤ a) (hb : 0 < b) : 0 ≤ pyRound a b := by
  have hq : 0 ≤ Int.fdiv a b := Int.fdiv_nonneg ha (le_of_lt hb)
  simp only [pyRound]
  split_ifs <;> omega

/-- A stretching child the loop does not skip: nonzero extent and stretch
flag set. -/
def posStretch (c : Nat × Bool) : Bool :=
  decide (c.1 ≠ 0) && c.2

theorem stackGranted_cons_none (c : Nat × Bool) (cs : List (Nat × Bool))
    (rs : List (Option (Int × Int))) :
    stackGranted (c :: cs) (none :: rs) = stackGranted cs rs := by
  obtain ⟨sz, st⟩ := c
  cases st <;> simp [stackGranted]

theorem stackGranted_cons_some (c : Nat × Bool) (pe : Int × Int) (cs : List (Nat × Bool))
    (rs : List (Option (Int × Int))) :
    stackGranted (c :: cs) (some pe :: rs)
      = (if c.2 then pe.2 - (c.1 : Int) else 0) + stackGranted cs rs := by
  obtain ⟨sz, st⟩ := c
  cases st <;> simp [stackGranted]

theorem stackGranted_bounds (perc : Int) (hperc : 0 ≤ perc) :
    ∀ (cs : List (Nat × Bool)) (remh pos : Int), 0 ≤ remh →
      0 ≤ stackGranted cs (stackLoop perc remh pos cs)
      ∧ stackGranted cs (stackLoop perc remh pos cs) ≤ remh
  | [], remh, pos, h => by
    simp only [stackLoop, stackGranted]
    omega
  | (sz, st) :: rest, remh, pos, h => by
    by_cases hsz : sz = 0
    · have ih := stackGranted_bounds perc hperc rest remh pos h
      simp only [stackLoop, if_pos hsz, stackGranted_cons_none]
      omega
    · by_cases hst : st = true
      · by_cases hlt : perc < remh
        · have ih := stackGranted_bounds perc hperc rest (remh - perc)
            (pos + (perc + (sz : Int))) (by omega)
          simp only [stackLoop, if_neg hsz, hst, if_true, if_pos hlt,
            stackGranted_cons_some]
          omega
        · have ih := stackGranted_bounds perc hperc rest (remh - remh)
            (pos + (remh + (sz : Int))) (by omega)
          simp only [stackLoop, if_neg hsz, hst, if_true, if_neg hlt,
            stackGranted_cons_some]
          omega
      · have ih := stackGranted_bounds perc hperc rest remh (pos + (sz : Int)) h
        simp only [stackLoop, if_neg hsz, hst, if_false, Bool.false_eq_true,
          stackGranted_cons_some]
        omega

theorem stackGranted_exact (perc : Int) (hperc : 0 ≤ perc) :
    ∀ (cs : List (Nat × Bool)) (remh pos : Int), 0 ≤ remh →
      remh ≤ (cs.countP posStretch : Int) * perc →
      stackGranted cs (stackLoop perc remh pos cs) = remh
  | [], remh, pos, h, hk => by
    simp only [List.countP_nil, Nat.cast_zero, zero_mul] at hk
    simp only [stackLoop, stackGranted]
    omega
  | (sz, st) :: rest, remh, pos, h, hk => by
    by_cases hsz : sz = 0
    · have hcp : ((sz, st) :: rest).countP posStretch = rest.countP posStretch := by
        rw [List.countP_cons_of_neg]
        simp [posStretch, hsz]
      rw [hcp] at hk
      have ih := stackGranted_exact perc hperc rest remh pos h hk
      simp only [stackLoop, if_pos hsz, stackGranted_cons_none]
      omega
    · by_cases hst : st = true
      · have hcp : ((sz, st) :: rest).countP posStretch = rest.countP posStretch + 1 := by
          rw [List.countP_cons_of_pos]
          simp [posStretch, hsz, hst]
        rw [hcp] at hk
        have hmul : ((rest.countP posStretch + 1 : Nat) : Int) * perc
            = (rest.countP posStretch : Int) * perc + perc := by
          push_cast
          ring
        rw [hmul] at hk
        by_cases hlt : perc < remh
        · have ih := stackGranted_exact perc hperc rest (remh - perc)
            (pos + (perc + (sz : Int))) (by omega) (by omega)
          simp only [stackLoop, if_neg hsz, hst, if_true, if_pos hlt,
            stackGranted_cons_some]
          omega
        · have hnn : (0 : Int) ≤ (rest.countP posStretch : Int) * perc :=
            mul_nonneg (by positivity) hperc
          have ih := stackGranted_exact perc hperc rest (remh - remh)
            (pos + (remh + (sz : Int))) (by omega) (by omega)
          simp only [stackLoop, if_neg hsz, hst, if_true, if_neg hlt,
            stackGranted_cons_some]
          omega
      · have hcp : ((sz, st) :: rest).countP posStretch = rest.countP posStretch := by
          rw [List.countP_cons_of_neg]
          simp [posStretch, hst]
        rw [hcp] at hk
        have ih := stackGranted_exact perc hperc rest remh (pos + (sz : Int)) h hk
        simp only [stackLoop, if_neg hsz, hst, if_false, Bool.false_eq_true,
          stackGranted_cons_some]
        omega

theorem verticalGranted_eq_stackGranted (W : Nat) :
    ∀ (cs : List ViewSize) (res : List (Option (Int × Int))),
      verticalGranted cs (res.map (Option.map (fun pe => (⟨0, pe.1, (W : Int), pe.2⟩ : SubCanvas))))
        = stackGranted (cs.map (fun c => (c.height, c.vstretch))) res
  | [], res => by cases res <;> rfl
  | c :: cs, [] => rfl
  | c :: cs, r :: rs => by
    cases r with
    | none =>
      simp only [List.map_cons, Option.map_none', verticalGranted, stackGranted,
        verticalGranted_eq_stackGranted W cs rs]
    | some pe =>
      simp only [List.map_cons, Option.map_some', verticalGranted, stackGranted,
        verticalGranted_eq_stackGranted W cs rs]

theorem horizontalGranted_eq_stackGranted (H : Nat) :
    ∀ (cs : List ViewSize) (res : List (Option (Int × Int))),
      horizontalGranted cs (res.map (Option.map (fun pe => (⟨pe.1, 0, pe.2, (H : Int)⟩ : SubCanvas))))
        = stackGranted (cs.map (fun c => (c.width, c.hstretch))) res
  | [], res => by cases res <;> rfl
  | c :: cs, [] => rfl
  | c :: cs, r :: rs => by
    cases r with
    | none =>
      simp only [List.map_cons, Option.map_none', horizontalGranted, stackGranted,
        horizontalGranted_eq_stackGranted H cs rs]
    | some pe =>
      simp only [List.map_cons, Option.map_some', horizontalGranted, stackGranted,
        horizontalGranted_eq_stackGranted H cs rs]

/-- Core distribution property on the shared loop: the total granted is
between 0 and the remaining budget `R`, and equals `R` exactly whenever no
stretching child is skipped (all have nonzero extent) and the rounded share
does not underestimate (`R ≤ n * round(R/n)`). -/
theorem stackRecalc_granted_spec (extent : Nat) (cs : List (Nat × Bool))
    (hn : 1 ≤ (cs.filter (fun c => c.2)).length)
    (hR : 0 ≤ (extent : Int) - (cs.map (fun c => (c.1 : Int))).sum) :
    0 ≤ stackGranted cs (stackRecalc extent cs)
    ∧ stackGranted cs (stackRecalc extent cs)
        ≤ (extent : Int) - (cs.map (fun c => (c.1 : Int))).sum
    ∧ ((∀ c ∈ cs, c.2 = true → c.1 ≠ 0) →
        (extent : Int) - (cs.map (fun c => (c.1 : Int))).sum
          ≤ ((cs.filter (fun c => c.2)).length : Int)
            * pyRound ((extent : Int) - (cs.map (fun c => (c.1 : Int))).sum)
                ((cs.filter (fun c => c.2)).length) →
        stackGranted cs (stackRecalc extent cs)
          = (extent : Int) - (cs.map (fun c => (c.1 : Int))).sum) := by
  have hanyc : (cs.filter (fun c => c.2)).length ≠ 0 := by omega
  have hperc : 0 ≤ pyRound ((extent : Int) - (cs.map (fun c => (c.1 : Int))).sum)
      ((cs.filter (fun c => c.2)).length) :=
    pyRound_nonneg hR (by exact_mod_cast Nat.pos_of_ne_zero hanyc)
  have hunfold : stackRecalc extent cs
      = stackLoop (pyRound ((extent : Int) - (cs.map (fun c => (c.1 : Int))).sum)
          ((cs.filter (fun c => c.2)).length))
          ((extent : Int) - (cs.map (fun c => (c.1 : Int))).sum) 0 cs := by
    simp only [stackRecalc]
    rw [if_pos hanyc]
  rw [hunfold]
  have hb := stackGranted_bounds _ hperc cs _ 0 hR
  refine ⟨hb.1, hb.2, ?_⟩
  intro hpos hle
  have hcount : cs.countP posStretch = (cs.filter (fun c => c.2)).length := by
    rw [← List.countP_eq_length_filter]
    apply List.countP_congr
    intro c hc
    unfold posStretch
    constructor
    · intro hpq
      simp only [Bool.and_eq_true, decide_eq_true_eq] at hpq
      exact hpq.2
    · intro hq
      simp only [Bool.and_eq_true, decide_eq_true_eq]
      exact ⟨hpos c hc hq, hq⟩
  exact stackGranted_exact _ hperc cs _ 0 hR (by rw [hcount]; exact hle)

/-- C1 counterexample: a Vertical container with three stretching children of
minimum height 1 on a canvas of height 13 has remaining budget `R = 10` and
`N = 3`, but `round(10/3) = 3` so each child is granted 3 and the total
granted is 9 — one unit of the budget is left undistributed. -/
theorem stretch_distribution_counterexample :
    (13 : Int) - (([⟨1, 1, false, true⟩, ⟨1, 1, false, true⟩, ⟨1, 1, false, true⟩] :
        List ViewSize).map (fun c => (c.height : Int))).sum = 10
    ∧ verticalGranted [⟨1, 1, false, true⟩, ⟨1, 1, false, true⟩, ⟨1, 1, false, true⟩]
        (Vertical.recalc 4 13 [⟨1, 1, false, true⟩, ⟨1, 1, false, true⟩, ⟨1, 1, false, true⟩]) = 9
    ∧ ¬ verticalGranted [⟨1, 1, false, true⟩, ⟨1, 1, false, true⟩, ⟨1, 1, false, true⟩]
        (Vertical.recalc 4 13 [⟨1, 1, false, true⟩, ⟨1, 1, false, true⟩, ⟨1, 1, false, true⟩])
        = 10 := by
  refine ⟨by decide, by decide, by decide⟩

/-- C1 (amended): for a Vertical (resp. Horizontal) container with N ≥ 1
stretching children on the stacking axis and remaining budget R ≥ 0, the
total extra extent granted is non-negative and never exceeds R (no
overshoot), and it equals exactly R whenever every stretching child has
nonzero minimum extent (a zero-extent child is skipped and granted nothing)
and the rounded share does not underestimate, i.e. `R ≤ N * round(R/N)`;
otherwise part of the budget can remain undistributed.  Each axis's statement
depends only on that axis's own hypotheses, so it applies e.g. to a Vertical
none of whose children stretch horizontally or whose widths exceed the canvas
width. -/
theorem stretch_distribution_spec (W H : Nat) (cs : List ViewSize) :
    (1 ≤ (cs.filter (fun c => c.vstretch)).length →
     0 ≤ (H : Int) - (cs.map (fun c => (c.height : Int))).sum →
     0 ≤ verticalGranted cs (Vertical.recalc W H cs)
     ∧ verticalGranted cs (Vertical.recalc W H cs)
         ≤ (H : Int) - (cs.map (fun c => (c.height : Int))).sum
     ∧ ((∀ c ∈ cs, c.vstretch = true → c.height ≠ 0) →
         (H : Int) - (cs.map (fun c => (c.height : Int))).sum
           ≤ ((cs.filter (fun c => c.vstretch)).length : Int)
             * pyRound ((H : Int) - (cs.map (fun c => (c.height : Int))).sum)
                 ((cs.filter (fun c => c.vstretch)).length) →
         verticalGranted cs (Vertical.recalc W H cs)
           = (H : Int) - (cs.map (fun c => (c.height : Int))).sum))
    ∧ (1 ≤ (cs.filter (fun c => c.hstretch)).length →
       0 ≤ (W : Int) - (cs.map (fun c => (c.width : Int))).sum →
       0 ≤ horizontalGranted cs (Horizontal.recalc W H cs)
       ∧ horizontalGranted cs (Horizontal.recalc W H cs)
           ≤ (W : Int) - (cs.map (fun c => (c.width : Int))).sum
       ∧ ((∀ c ∈ cs, c.hstretch = true → c.width ≠ 0) →
           (W : Int) - (cs.map (fun c => (c.width : Int))).sum
             ≤ ((cs.filter (fun c => c.hstretch)).length : Int)
               * pyRound ((W : Int) - (cs.map (fun c => (c.width : Int))).sum)
                   ((cs.filter (fun c => c.hstretch)).length) →
           horizontalGranted cs (Horizontal.recalc W H cs)
             = (W : Int) - (cs.map (fun c => (c.width : Int))).sum)) := by
  refine ⟨?_, ?_⟩
  · intro hnv hRv
    have hfv : ((cs.map (fun c => (c.height, c.vstretch))).filter (fun c => c.2)).length
        = (cs.filter (fun c => c.vstretch)).length := by
      rw [List.filter_map, List.length_map]
      congr 1
    have hsv : ((cs.map (fun c => (c.height, c.vstretch))).map (fun c => (c.1 : Int))).sum
        = (cs.map (fun c => (c.height : Int))).sum := by
      rw [List.map_map]
      congr 1
    have hv := stackRecalc_granted_spec H (cs.map (fun c => (c.height, c.vstretch)))
      (by rw [hfv]; exact hnv) (by rw [hsv]; exact hRv)
    rw [hfv, hsv] at hv
    have htv : verticalGranted cs (Vertical.recalc W H cs)
        = stackGranted (cs.map (fun c => (c.height, c.vstretch)))
            (stackRecalc H (cs.map (fun c => (c.height, c.vstretch)))) :=
      verticalGranted_eq_stackGranted W cs _
    refine ⟨htv ▸ hv.1, htv ▸ hv.2.1, ?_⟩
    intro hpos hle
    rw [htv]
    apply hv.2.2 _ hle
    intro c hc h2
    rcases List.mem_map.mp hc with ⟨v, hv0, hveq⟩
    have : c.1 = v.height := by rw [← hveq]
    rw [this]
    apply hpos v hv0
    rw [← hveq] at h2
    exact h2
  · intro hnh hRh
    have hfh : ((cs.map (fun c => (c.width, c.hstretch))).filter (fun c => c.2)).length
        = (cs.filter (fun c => c.hstretch)).length := by
      rw [List.filter_map, List.length_map]
      congr 1
    have hsh : ((cs.map (fun c => (c.width, c.hstretch))).map (fun c => (c.1 : Int))).sum
        = (cs.map (fun c => (c.width : Int))).sum := by
      rw [List.map_map]
      congr 1
    have hh := stackRecalc_granted_spec W (cs.map (fun c => (c.width, c.hstretch)))
      (by rw [hfh]; exact hnh) (by rw [hsh]; exact hRh)
    rw [hfh, hsh] at hh
    have hth : horizontalGranted cs (Horizontal.recalc W H cs)
        = stackGranted (cs.map (fun c => (c.width, c.hstretch)))
            (stackRecalc W (cs.map (fun c => (c.width, c.hstretch)))) :=
      horizontalGranted_eq_stackGranted H cs _
    refine ⟨hth ▸ hh.1, hth ▸ hh.2.1, ?_⟩
    intro hpos hle
    rw [hth]
    apply hh.2.2 _ hle
    intro c hc h2
    rcases List.mem_map.mp hc with ⟨v, hv0, hveq⟩
    have : c.1 = v.width := by rw [← hveq]
    rw [this]
    apply hpos v hv0
    rw [← hveq] at h2
    exact h2

theorem stretch_distribution_spec_witness :
    (1 ≤ (([⟨1, 1, false, true⟩, ⟨1, 1, false, true⟩, ⟨1, 1, false, true⟩] : List ViewSize).filter (fun c => c.vstretch)).length
     ∧ 0 ≤ (5 : Int) - (([⟨1, 1, false, true⟩, ⟨1, 1, false, true⟩, ⟨1, 1, false, true⟩] : List ViewSize).map (fun c => (c.height : Int))).sum
     ∧ (0 ≤ verticalGranted [⟨1, 1, false, true⟩, ⟨1, 1, false, true⟩, ⟨1, 1, false, true⟩] (Vertical.recalc 2 5 [⟨1, 1, false, true⟩, ⟨1, 1, false, true⟩, ⟨1, 1, false, true⟩])
        ∧ verticalGranted [⟨1, 1, false, true⟩, ⟨1, 1, false, true⟩, ⟨1, 1, false, true⟩] (Vertical.recalc 2 5 [⟨1, 1, false, true⟩, ⟨1, 1, false, true⟩, ⟨1, 1, false, true⟩])
            ≤ (5 : Int) - (([⟨1, 1, false, true⟩, ⟨1, 1, false, true⟩, ⟨1, 1, false, true⟩] : List ViewSize).map (fun c => (c.height : Int))).sum
        ∧ ((∀ c ∈ ([⟨1, 1, false, true⟩, ⟨1, 1, false, true⟩, ⟨1, 1, false, true⟩] : List ViewSize), c.vstretch = true → c.height ≠ 0) →
            (5 : Int) - (([⟨1, 1, false, true⟩, ⟨1, 1, false, true⟩, ⟨1, 1, false, true⟩] : List ViewSize).map (fun c => (c.height : Int))).sum
              ≤ ((([⟨1, 1, false, true⟩, ⟨1, 1, false, true⟩, ⟨1, 1, false, true⟩] : List ViewSize).filter (fun c => c.vstretch)).length : Int)
                * pyRound ((5 : Int) - (([⟨1, 1, false, true⟩, ⟨1, 1, false, true⟩, ⟨1, 1, false, true⟩] :
                      List ViewSize).map (fun c => (c.height : Int))).sum)
                    ((([⟨1, 1, false, true⟩, ⟨1, 1, false, true⟩, ⟨1, 1, false, true⟩] : List ViewSize).filter (fun c => c.vstretch)).length) →
            verticalGranted [⟨1, 1, false, true⟩, ⟨1, 1, false, true⟩, ⟨1, 1, false, true⟩] (Vertical.recalc 2 5 [⟨1, 1, false, true⟩, ⟨1, 1, false, true⟩, ⟨1, 1, false, true⟩])
              = (5 : Int) - (([⟨1, 1, false, true⟩, ⟨1, 1, false, true⟩, ⟨1, 1, false, true⟩] : List ViewSize).map (fun c => (c.height : Int))).sum)))
    ∧ (1 ≤ (([⟨1, 1, true, false⟩, ⟨1, 1, true, false⟩, ⟨1, 1, true, false⟩] : List ViewSize).filter (fun c => c.hstretch)).length
     ∧ 0 ≤ (5 : Int) - (([⟨1, 1, true, false⟩, ⟨1, 1, true, false⟩, ⟨1, 1, true, false⟩] : List ViewSize).map (fun c => (c.width : Int))).sum
     ∧ (0 ≤ horizontalGranted [⟨1, 1, true, false⟩, ⟨1, 1, true, false⟩, ⟨1, 1, true, false⟩] (Horizontal.recalc 5 2 [⟨1, 1, true, false⟩, ⟨1, 1, true, false⟩, ⟨1, 1, true, false⟩])
        ∧ horizontalGranted [⟨1, 1, true, false⟩, ⟨1, 1, true, false⟩, ⟨1, 1, true, false⟩] (Horizontal.recalc 5 2 [⟨1, 1, true, false⟩, ⟨1, 1, true, false⟩, ⟨1, 1, true, false⟩])
            ≤ (5 : Int) - (([⟨1, 1, true, false⟩, ⟨1, 1, true, false⟩, ⟨1, 1, true, false⟩] : List ViewSize).map (fun c => (c.width : Int))).sum
        ∧ ((∀ c ∈ ([⟨1, 1, true, false⟩, ⟨1, 1, true, false⟩, ⟨1, 1, true, false⟩] : List ViewSize), c.hstretch = true → c.width ≠ 0) →
            (5 : Int) - (([⟨1, 1, true, false⟩, ⟨1, 1, true, false⟩, ⟨1, 1, true, false⟩] : List ViewSize).map (fun c => (c.width : Int))).sum
              ≤ ((([⟨1, 1, true, false⟩, ⟨1, 1, true, false⟩, ⟨1, 1, true, false⟩] : List ViewSize).filter (fun c => c.hstretch)).length : Int)
                * pyRound ((5 : Int) - (([⟨1, 1, true, false⟩, ⟨1, 1, true, false⟩, ⟨1, 1, true, false⟩] :
                      List ViewSize).map (fun c => (c.width : Int))).sum)
                    ((([⟨1, 1, true, false⟩, ⟨1, 1, true, false⟩, ⟨1, 1, true, false⟩] : List ViewSize).filter (fun c => c.hstretch)).length) →
            horizontalGranted [⟨1, 1, true, false⟩, ⟨1, 1, true, false⟩, ⟨1, 1, true, false⟩] (Horizontal.recalc 5 2 [⟨1, 1, true, false⟩, ⟨1, 1, true, false⟩, ⟨1, 1, true, false⟩])
              = (5 : Int) - (([⟨1, 1, true, false⟩, ⟨1, 1, true, false⟩, ⟨1, 1, true, false⟩] : List ViewSize).map (fun c => (c.width : Int))).sum))) :=
  ⟨⟨by decide, by decide,
    (stretch_distribution_spec 2 5 [⟨1, 1, false, true⟩, ⟨1, 1, false, true⟩, ⟨1, 1, false, true⟩]).1 (by decide) (by decide)⟩,
   ⟨by decide, by decide,
    (stretch_distribution_spec 5 2 [⟨1, 1, true, false⟩, ⟨1, 1, true, false⟩, ⟨1, 1, true, false⟩]).2 (by decide) (by decide)⟩⟩

/-! ## C6 — Radio.Group.select: exclusivity and the group value event

Infrastructure: the effect of the member loop when it only clears
(`clearOthers`), characterisations of `selected`, and the behaviour of the
re-entrant call (which finds the target already true and fires nothing). -/

/-- What the member loop does to the values apart from the target: every
visited index other than `i` is set to false. -/
def clearOthers (i : Nat) (js : List Nat) (vals : List Bool) : List Bool :=
  js.foldl (fun v j => if j ≠ i then v.set j false else v) vals

theorem clearOthers_nil (i : Nat) (vals : List Bool) :
    clearOthers i [] vals = vals := rfl

theorem clearOthers_cons_ne (i j : Nat) (js : List Nat) (vals : List Bool)
    (h : j ≠ i) :
    clearOthers i (j :: js) vals = clearOthers i js (vals.set j false) := by
  simp [clearOthers, h]

theorem clearOthers_cons_eq (i : Nat) (js : List Nat) (vals : List Bool) :
    clearOthers i (i :: js) vals = clearOthers i js vals := by
  simp [clearOthers]

theorem clearOthers_getElem? (i : Nat) :
    ∀ (js : List Nat) (vals : List Bool) (p : Nat),
      (clearOthers i js vals)[p]? =
        if p ∈ js ∧ p ≠ i ∧ p < vals.length then some false else vals[p]?
  | [], vals, p => by simp [clearOthers_nil]
  | j :: js, vals, p => by
    by_cases hij : j = i
    · subst hij
      rw [clearOthers_cons_eq, clearOthers_getElem? j js vals p]
      simp only [List.mem_cons]
      split_ifs with h1 h2 <;> first | rfl | tauto
    · rw [clearOthers_cons_ne i j js vals hij, clearOthers_getElem? i js (vals.set j false) p,
        List.length_set]
      by_cases hpj : p = j
      · subst hpj
        by_cases hplen : p < vals.length
        · have hset : (vals.set p false)[p]? = some false := List.getElem?_set_self hplen
          simp only [List.mem_cons]
          split_ifs with h1 h2 <;> first | rfl | (exfalso; tauto) | rw [hset]
        · have hset : (vals.set p false)[p]? = none := by
            apply List.getElem?_eq_none
            rw [List.length_set]
            omega
          have hnone : vals[p]? = none := List.getElem?_eq_none (by omega)
          simp only [List.mem_cons]
          split_ifs with h1 h2 <;> first | rfl | (exfalso; tauto) | rw [hset, hnone]
      · have hset : (vals.set j false)[p]? = vals[p]? :=
          List.getElem?_set_ne (by omega)
        rw [hset]
        simp only [List.mem_cons]
        split_ifs with h1 h2 <;> first | rfl | tauto

theorem onlyTrueAt_getElem? (n i p : Nat) :
    (onlyTrueAt n i)[p]? = if p < n then some (decide (p = i)) else none := by
  unfold onlyTrueAt
  rw [List.getElem?_map]
  by_cases hp : p < n
  · rw [List.getElem?_range hp, if_pos hp, Option.map_some']
  · rw [if_neg hp, List.getElem?_eq_none, Option.map_none']
    simpa using hp

theorem length_onlyTrueAt (n i : Nat) : (onlyTrueAt n i).length = n := by
  simp [onlyTrueAt]

theorem clearOthers_range (i : Nat) (vals : List Bool) (hi : i < vals.length)
    (hvi : vals[i]? = some true) :
    clearOthers i (List.range vals.length) vals = onlyTrueAt vals.length i := by
  apply List.ext_getElem?
  intro p
  rw [clearOthers_getElem?, onlyTrueAt_getElem?]
  by_cases hp : p < vals.length
  · by_cases hpi : p = i
    · subst hpi
      rw [if_neg (by tauto), if_pos hp, hvi]
      simp
    · rw [if_pos ⟨List.mem_range.mpr hp, hpi, hp⟩, if_pos hp]
      simp [hpi]
  · rw [if_neg (by simp [List.mem_range]; omega), if_neg hp]
    exact List.getElem?_eq_none (by omega)

theorem selected_of_getElem? :
    ∀ (xs : List Bool) (i : Nat), xs[i]? = some true →
      (∀ p, p < i → xs[p]? = some false) →
      Radio.Group.selected xs = some i
  | [], i, h1, _ => by simp at h1
  | b :: rest, 0, h1, _ => by
    simp only [List.getElem?_cons_zero, Option.some.injEq] at h1
    simp [Radio.Group.selected, h1]
  | b :: rest, i + 1, h1, h2 => by
    have hb : b = false := by
      have := h2 0 (Nat.succ_pos i)
      simpa using this
    have hrest : Radio.Group.selected rest = some i := by
      apply selected_of_getElem? rest i
      · simpa using h1
      · intro p hp
        have := h2 (p + 1) (by omega)
        simpa using this
    unfold Radio.Group.selected at hrest ⊢
    rw [List.findIdx?_cons]
    simp only [hb, cond_false, if_false, Bool.false_eq_true]
    rw [List.findIdx?_succ, hrest]
    rfl

theorem selected_onlyTrueAt (n i : Nat) (hi : i < n) :
    Radio.Group.selected (onlyTrueAt n i) = some i := by
  apply selected_of_getElem?
  · rw [onlyTrueAt_getElem?, if_pos hi]
    simp
  · intro p hp
    rw [onlyTrueAt_getElem?, if_pos (by omega)]
    simp
    omega

theorem selected_some_getElem? :
    ∀ (xs : List Bool) (k : Nat), Radio.Group.selected xs = some k →
      xs[k]? = some true
  | [], k, h => by simp [Radio.Group.selected] at h
  | b :: rest, k, h => by
    unfold Radio.Group.selected at h
    rw [List.findIdx?_cons] at h
    by_cases hb : b = true
    · simp only [hb, if_true] at h
      have : k = 0 := by simpa using h.symm
      subst this
      simp [hb]
    · simp only [hb, if_false, Bool.false_eq_true] at h
      rw [List.findIdx?_succ] at h
      rcases Option.map_eq_some'.mp h with ⟨k2, hk2, hkeq⟩
      subst hkeq
      have := selected_some_getElem? rest k2 hk2
      simpa using this

theorem selectLoop_no_target (recur : List Bool → List Bool × List (Option Nat × Option Nat))
    (i : Nat) :
    ∀ (js : List Nat) (vals : List Bool), (∀ j ∈ js, j ≠ i) →
      selectLoop recur i js vals = (clearOthers i js vals, [])
  | [], vals, _ => rfl
  | j :: js, vals, h => by
    have hj : j ≠ i := h j (List.mem_cons_self j js)
    rw [clearOthers_cons_ne i j js vals hj]
    have hrest : ∀ j2 ∈ js, j2 ≠ i := fun j2 hm => h j2 (List.mem_cons_of_mem j hm)
    simp only [selectLoop, if_pos hj]
    exact selectLoop_no_target recur i js (vals.set j false) hrest

theorem selectLoop_target_true (recur : List Bool → List Bool × List (Option Nat × Option Nat))
    (i : Nat) :
    ∀ (js : List Nat) (vals : List Bool), vals.getD i false = true →
      selectLoop recur i js vals = (clearOthers i js vals, [])
  | [], vals, _ => rfl
  | j :: js, vals, h => by
    by_cases hj : j ≠ i
    · rw [clearOthers_cons_ne i j js vals hj]
      have hpres : (vals.set j false).getD i false = true := by
        rw [List.getD_eq_getElem?_getD, List.getElem?_set_ne hj]
        rw [List.getD_eq_getElem?_getD] at h
        exact h
      simp only [selectLoop, if_pos hj]
      exact selectLoop_target_true recur i js (vals.set j false) hpres
    · push_neg at hj
      subst hj
      rw [clearOthers_cons_eq]
      simp only [selectLoop, ne_eq, not_true_eq_false, if_false, h, not_true_eq_false]
      exact selectLoop_target_true recur j js vals h

theorem selectLoop_append (recur : List Bool → List Bool × List (Option Nat × Option Nat))
    (i : Nat) :
    ∀ (js1 js2 : List Nat) (vals : List Bool),
      selectLoop recur i (js1 ++ js2) vals
        = ((selectLoop recur i js2 (selectLoop recur i js1 vals).1).1,
           (selectLoop recur i js1 vals).2
             ++ (selectLoop recur i js2 (selectLoop recur i js1 vals).1).2)
  | [], js2, vals => by simp [selectLoop]
  | j :: js1, js2, vals => by
    by_cases hj : j ≠ i
    · simp only [List.cons_append, selectLoop, if_pos hj]
      exact selectLoop_append recur i js1 js2 (vals.set j false)
    · push_neg at hj
      subst hj
      by_cases hv : vals.getD j false
      · simp only [List.cons_append, selectLoop, ne_eq, not_true_eq_false, if_false, hv,
          not_true_eq_false]
        exact selectLoop_append recur j js1 js2 vals
      · simp only [List.cons_append, selectLoop, ne_eq, not_true_eq_false, if_false,
          Bool.not_eq_true] at hv ⊢
        rw [hv]
        simp only [Bool.false_eq_true, not_false_eq_true, if_true]
        simp only [List.append_eq]
        rw [selectLoop_append recur j js1 js2 ((recur (vals.set j true)).1)]
        simp [List.append_assoc]

/-- One step of the fuel recursion, as a definitional equation. -/
theorem selectFuel_succ (fuel : Nat) (vals : List Bool) (i : Nat) :
    Radio.Group.selectFuel (fuel + 1) vals i
      = (if Radio.Group.selected
            (selectLoop (fun v => Radio.Group.selectFuel fuel v i) i
              (List.range vals.length) vals).1 = Radio.Group.selected vals
         then selectLoop (fun v => Radio.Group.selectFuel fuel v i) i
              (List.range vals.length) vals
         else ((selectLoop (fun v => Radio.Group.selectFuel fuel v i) i
                  (List.range vals.length) vals).1,
               (selectLoop (fun v => Radio.Group.selectFuel fuel v i) i
                  (List.range vals.length) vals).2
                 ++ [(Radio.Group.selected
                       (selectLoop (fun v => Radio.Group.selectFuel fuel v i) i
                         (List.range vals.length) vals).1,
                      Radio.Group.selected vals)])) := rfl

/-- Re-entrant/base behaviour of `select` when the target member is already
true: the loop only clears the other members, `selected` is unchanged at `i`,
and no group event fires when the old selection was already `i`. -/
theorem selectFuel_target_true (fuel : Nat) (vals : List Bool) (i : Nat)
    (hi : i < vals.length) (hv : vals[i]? = some true) :
    Radio.Group.selectFuel (fuel + 1) vals i
      = (onlyTrueAt vals.length i,
         if Radio.Group.selected vals = some i then []
         else [(some i, Radio.Group.selected vals)]) := by
  have hgd : vals.getD i false = true := by
    rw [List.getD_eq_getElem?_getD, hv]
    rfl
  rw [selectFuel_succ,
    selectLoop_target_true (fun v => Radio.Group.selectFuel fuel v i) i
      (List.range vals.length) vals hgd,
    clearOthers_range i vals hi hv]
  rw [selected_onlyTrueAt vals.length i hi]
  by_cases hsel : Radio.Group.selected vals = some i
  · rw [if_pos hsel.symm, if_pos hsel]
  · rw [if_neg (fun h => hsel h.symm), if_neg hsel]
    rfl

theorem clearOthers_length (i : Nat) :
    ∀ (js : List Nat) (vals : List Bool), (clearOthers i js vals).length = vals.length
  | [], vals => rfl
  | j :: js, vals => by
    by_cases hj : j ≠ i
    · rw [clearOthers_cons_ne i j js vals hj, clearOthers_length i js (vals.set j false),
        List.length_set]
    · push_neg at hj
      subst hj
      rw [clearOthers_cons_eq, clearOthers_length j js vals]

theorem count_onlyTrueAt_of_le (i : Nat) :
    ∀ (n : Nat), n ≤ i → (onlyTrueAt n i).count true = 0
  | 0, _ => rfl
  | n + 1, h => by
    unfold onlyTrueAt
    rw [List.range_succ, List.map_append, List.count_append]
    have h1 : (onlyTrueAt n i).count true = 0 := count_onlyTrueAt_of_le i n (by omega)
    unfold onlyTrueAt at h1
    rw [h1]
    simp only [List.map_cons, List.map_nil, Nat.zero_add]
    have : decide (n = i) = false := by simp; omega
    rw [this]
    rfl

theorem count_onlyTrueAt (n i : Nat) (hi : i < n) :
    (onlyTrueAt n i).count true = 1 := by
  induction n with
  | zero => omega
  | succ n ih =>
    unfold onlyTrueAt
    rw [List.range_succ, List.map_append, List.count_append]
    by_cases hin : i = n
    · subst hin
      have h0 : (onlyTrueAt i i).count true = 0 := count_onlyTrueAt_of_le i i le_rfl
      unfold onlyTrueAt at h0
      rw [h0]
      simp
    · have h1 : (onlyTrueAt n i).count true = 1 := ih (by omega)
      unfold onlyTrueAt at h1
      rw [h1]
      have : decide (n = i) = false := by simp; omega
      simp only [List.map_cons, List.map_nil, this]
      rfl

/-- C6 (amended): after `group.select(r)` on a group whose member values are
`vals`, with `r` the member at index `i`, exactly one member has value true,
namely `r`; one group-level `ValueEvent` (new selection, old selection) fires
when the selection changed, and NONE fires when `r` was already the selected
member (the `if self.selected == old: return` suppresses the no-op event).
The value handler's re-entrant `select` call is accounted for: it finds the
target already true and fires nothing. -/
theorem radio_select_spec (vals : List Bool) (i : Nat) (hi : i < vals.length) :
    Radio.Group.select vals i
      = (onlyTrueAt vals.length i,
         if Radio.Group.selected vals = some i then []
         else [(some i, Radio.Group.selected vals)])
    ∧ (onlyTrueAt vals.length i).count true = 1 := by
  refine ⟨?_, count_onlyTrueAt vals.length i hi⟩
  by_cases hv : vals[i]? = some true
  · exact selectFuel_target_true 1 vals i hi hv
  · have hvf : vals[i]? = some false := by
      have hsome := List.getElem?_eq_getElem hi
      cases hb : vals[i] with
      | true => exact absurd (hb ▸ hsome) hv
      | false => exact hb ▸ hsome
    have hold : Radio.Group.selected vals ≠ some i := by
      intro h
      have := selected_some_getElem? vals i h
      rw [hvf] at this
      simp at this
    obtain ⟨m, hm⟩ : ∃ m, vals.length = i + 1 + m := ⟨vals.length - i - 1, by omega⟩
    have hdec : List.range vals.length
        = List.range i ++ i :: (List.range m).map (fun k => i + 1 + k) := by
      rw [hm, show i + 1 + m = i + (1 + m) from by omega, List.range_add]
      congr 1
      rw [show 1 + m = m + 1 from by omega, List.range_succ_eq_map, List.map_cons,
        List.map_map]
      congr 1
      apply List.map_congr_left
      intro k _
      simp [Function.comp]
      omega
    have htail : ∀ j ∈ (List.range m).map (fun k => i + 1 + k), j ≠ i := by
      intro j hj
      rcases List.mem_map.mp hj with ⟨k, _, hk⟩
      omega
    have h2 : Radio.Group.select vals i = Radio.Group.selectFuel (1 + 1) vals i := rfl
    rw [h2, selectFuel_succ, hdec, selectLoop_append]
    rw [selectLoop_no_target (fun v => Radio.Group.selectFuel 1 v i) i (List.range i) vals
      (by intro j hj; have := List.mem_range.mp hj; omega)]
    have hvAi : (clearOthers i (List.range i) vals).getD i false = false := by
      rw [List.getD_eq_getElem?_getD, clearOthers_getElem?]
      rw [if_neg (by simp [List.mem_range])]
      rw [hvf]
      rfl
    simp only [selectLoop, ne_eq, not_true_eq_false, if_false, hvAi, Bool.false_eq_true,
      not_false_eq_true, if_true]
    have hlenA : (clearOthers i (List.range i) vals).length = vals.length :=
      clearOthers_length i (List.range i) vals
    have hv1i : ((clearOthers i (List.range i) vals).set i true)[i]? = some true :=
      List.getElem?_set_self (by rw [hlenA]; exact hi)
    have hselv1 :
        Radio.Group.selected ((clearOthers i (List.range i) vals).set i true) = some i := by
      apply selected_of_getElem? _ i hv1i
      intro p hp
      rw [List.getElem?_set_ne (by omega), clearOthers_getElem?]
      rw [if_pos ⟨List.mem_range.mpr hp, by omega, by omega⟩]
    have hr1 := selectFuel_target_true 0 ((clearOthers i (List.range i) vals).set i true) i
      (by rw [List.length_set, hlenA]; exact hi) hv1i
    rw [List.length_set, hlenA, if_pos hselv1, Nat.zero_add] at hr1
    rw [hr1]
    have hidem : clearOthers i ((List.range m).map (fun k => i + 1 + k))
        (onlyTrueAt vals.length i) = onlyTrueAt vals.length i := by
      apply List.ext_getElem?
      intro p
      rw [clearOthers_getElem?, length_onlyTrueAt]
      split_ifs with h
      · rw [onlyTrueAt_getElem?, if_pos h.2.2]
        have : decide (p = i) = false := by simp; exact h.2.1
        rw [this]
      · rfl
    rw [selectLoop_no_target (fun v => Radio.Group.selectFuel 1 v i) i
      ((List.range m).map (fun k => i + 1 + k)) (onlyTrueAt vals.length i) htail, hidem]
    rw [selected_onlyTrueAt vals.length i hi]
    rw [if_neg (fun h => hold h.symm), if_neg hold]
    rfl

/-- C6 counterexample: selecting the already-selected member fires NO
group-level value event, where the claim as stated expects exactly one even
in that case. -/
theorem radio_select_counterexample :
    (Radio.Group.select [true, false] 0).2 = []
    ∧ (Radio.Group.select [true, false] 0).2.length ≠ 1 := by
  refine ⟨by decide, by decide⟩

theorem radio_select_spec_witness :
    0 < ([false, true] : List Bool).length
    ∧ (Radio.Group.select [false, true] 0
        = (onlyTrueAt ([false, true] : List Bool).length 0,
           if Radio.Group.selected [false, true] = some 0 then []
           else [(some 0, Radio.Group.selected [false, true])])
       ∧ (onlyTrueAt ([false, true] : List Bool).length 0).count true = 1) :=
  ⟨by decide, radio_select_spec [false, true] 0 (by decide)⟩

/-! ## C7 — Grid colspan sizing: floor split with rightmost remainder -/

theorem bumpAt_getD (l : List Nat) (j a p : Nat) :
    (bumpAt l j a).getD p 0
      = l.getD p 0 + (if p = j ∧ j < l.length then a else 0) := by
  unfold bumpAt
  by_cases hpj : p = j
  · subst hpj
    by_cases hl : p < l.length
    · rw [List.getD_eq_getElem?_getD, List.getElem?_set_self hl, Option.getD_some,
        if_pos ⟨rfl, hl⟩]
    · have h1 : (l.set p (l.getD p 0 + a))[p]? = none := by
        apply List.getElem?_eq_none
        rw [List.length_set]
        omega
      have h2 : l[p]? = none := List.getElem?_eq_none (by omega)
      rw [List.getD_eq_getElem?_getD, h1, List.getD_eq_getElem?_getD, h2,
        if_neg (by tauto)]
      rfl
  · rw [List.getD_eq_getElem?_getD, List.getElem?_set_ne (by omega),
      ← List.getD_eq_getElem?_getD, if_neg (by tauto)]
    omega

theorem bumpAt_length (l : List Nat) (j a : Nat) :
    (bumpAt l j a).length = l.length :=
  List.length_set l j _

theorem growEven_zero (cws : List Nat) (i spl : Nat) : growEven cws i 0 spl = cws := rfl

theorem growEven_succ (cws : List Nat) (i span spl : Nat) :
    growEven cws i (span + 1) spl = bumpAt (growEven cws i span spl) (i + span) spl := by
  unfold growEven
  rw [List.range_succ, List.foldl_append]
  rfl

theorem growEven_length (i spl : Nat) :
    ∀ (span : Nat) (cws : List Nat), (growEven cws i span spl).length = cws.length
  | 0, cws => rfl
  | span + 1, cws => by
    rw [growEven_succ, bumpAt_length, growEven_length i spl span cws]

theorem growEven_getD (i spl : Nat) :
    ∀ (span : Nat) (cws : List Nat), i + span ≤ cws.length → ∀ p,
      (growEven cws i span spl).getD p 0
        = cws.getD p 0 + (if i ≤ p ∧ p < i + span then spl else 0)
  | 0, cws, _, p => by
    rw [growEven_zero, if_neg (by omega)]
    omega
  | span + 1, cws, hrange, p => by
    rw [growEven_succ, bumpAt_getD, growEven_length i spl span cws,
      growEven_getD i spl span cws (by omega) p]
    split_ifs <;> omega

theorem growRem_length (i : Nat) :
    ∀ (a m : Nat) (cws : List Nat), (growRem i (remOffsets a) m cws).length = cws.length
  | 0, m, cws => rfl
  | a + 1, 0, cws => rfl
  | a + 1, m + 1, cws => by
    show (growRem i (remOffsets a) m (bumpAt cws (i + (a + 1)) 1)).length = cws.length
    rw [growRem_length i a m (bumpAt cws (i + (a + 1)) 1), bumpAt_length]

theorem growRem_getD (i : Nat) :
    ∀ (a m : Nat) (cws : List Nat), m ≤ a → i + a < cws.length → ∀ p,
      (growRem i (remOffsets a) m cws).getD p 0
        = cws.getD p 0 + (if i + a + 1 - m ≤ p ∧ p ≤ i + a then 1 else 0)
  | 0, m, cws, hm, _, p => by
    have : m = 0 := by omega
    subst this
    rw [show growRem i (remOffsets 0) 0 cws = cws from rfl, if_neg (by omega)]
    omega
  | a + 1, 0, cws, _, _, p => by
    rw [show growRem i (remOffsets (a + 1)) 0 cws = cws from rfl, if_neg (by omega)]
    omega
  | a + 1, m + 1, cws, hm, hrange, p => by
    show (growRem i (remOffsets a) m (bumpAt cws (i + (a + 1)) 1)).getD p 0 = _
    rw [growRem_getD i a m (bumpAt cws (i + (a + 1)) 1) (by omega)
        (by rw [bumpAt_length]; omega) p,
      bumpAt_getD]
    split_ifs <;> omega

theorem sum_map_range_add (f g : Nat → Nat) :
    ∀ n : Nat, ((List.range n).map (fun k => f k + g k)).sum
      = ((List.range n).map f).sum + ((List.range n).map g).sum
  | 0 => rfl
  | n + 1 => by
    rw [List.range_succ]
    simp only [List.map_append, List.sum_append, List.map_cons, List.map_nil,
      List.sum_cons, List.sum_nil]
    rw [sum_map_range_add f g n]
    omega

theorem sum_map_range_const (c : Nat) :
    ∀ n : Nat, ((List.range n).map (fun _ => c)).sum = n * c
  | 0 => by simp
  | n + 1 => by
    rw [List.range_succ]
    simp only [List.map_append, List.sum_append, List.map_cons, List.map_nil,
      List.sum_cons, List.sum_nil]
    rw [sum_map_range_const c n]
    ring

theorem sum_map_range_indicator (k : Nat) :
    ∀ n : Nat, ((List.range n).map (fun oc => if k ≤ oc then 1 else 0)).sum = n - k
  | 0 => by simp
  | n + 1 => by
    rw [List.range_succ]
    simp only [List.map_append, List.sum_append, List.map_cons, List.map_nil,
      List.sum_cons, List.sum_nil]
    rw [sum_map_range_indicator k n]
    split_ifs <;> omega

theorem distribute_getD (cws : List Nat) (i span w : Nat)
    (hspan : 1 ≤ span) (hrange : i + span ≤ cws.length)
    (hshort : sumSpan cws i span < w) :
    ∀ p, p < cws.length →
      (Grid.distribute cws i span w).getD p 0
        = cws.getD p 0
          + (if i ≤ p ∧ p < i + span then
              (w - sumSpan cws i span) / span
                + (if span - (w - sumSpan cws i span) % span ≤ p - i then 1 else 0)
             else 0) := by
  intro p hp
  unfold Grid.distribute
  dsimp only
  rw [if_pos hshort]
  have hdm := Nat.div_add_mod (w - sumSpan cws i span) span
  have hover : w - sumSpan cws i span - span * ((w - sumSpan cws i span) / span)
      = (w - sumSpan cws i span) % span := by omega
  rw [hover]
  have hmod : (w - sumSpan cws i span) % span < span :=
    Nat.mod_lt _ (by omega)
  rw [growRem_getD i (span - 1) ((w - sumSpan cws i span) % span)
      (growEven cws i span ((w - sumSpan cws i span) / span)) (by omega)
      (by rw [growEven_length]; omega) p,
    growEven_getD i ((w - sumSpan cws i span) / span) span cws hrange p]
  split_ifs <;> omega

theorem distribute_sumSpan (cws : List Nat) (i span w : Nat)
    (hspan : 1 ≤ span) (hrange : i + span ≤ cws.length)
    (hshort : sumSpan cws i span < w) :
    sumSpan (Grid.distribute cws i span w) i span = w := by
  have hmap : (List.range span).map (fun oc => (Grid.distribute cws i span w).getD (i + oc) 0)
      = (List.range span).map (fun oc => cws.getD (i + oc) 0
          + ((w - sumSpan cws i span) / span
             + (if span - (w - sumSpan cws i span) % span ≤ oc then 1 else 0))) := by
    apply List.map_congr_left
    intro oc hoc
    have hoclt := List.mem_range.mp hoc
    rw [distribute_getD cws i span w hspan hrange hshort (i + oc) (by omega),
      if_pos (by omega : i ≤ i + oc ∧ i + oc < i + span)]
    have hsub : i + oc - i = oc := by omega
    rw [hsub]
  show ((List.range span).map (fun oc => (Grid.distribute cws i span w).getD (i + oc) 0)).sum = w
  rw [hmap, sum_map_range_add (fun oc => cws.getD (i + oc) 0)
      (fun oc => (w - sumSpan cws i span) / span
        + (if span - (w - sumSpan cws i span) % span ≤ oc then 1 else 0)) span,
    sum_map_range_add (fun _ => (w - sumSpan cws i span) / span)
      (fun oc => if span - (w - sumSpan cws i span) % span ≤ oc then 1 else 0) span,
    sum_map_range_const ((w - sumSpan cws i span) / span) span,
    sum_map_range_indicator (span - (w - sumSpan cws i span) % span) span]
  have hdm := Nat.div_add_mod (w - sumSpan cws i span) span
  have hmod : (w - sumSpan cws i span) % span < span :=
    Nat.mod_lt _ (by omega)
  have htot : ((List.range span).map (fun oc => cws.getD (i + oc) 0)).sum
      = sumSpan cws i span := rfl
  rw [htot]
  omega

/-- C7: a `Grid(2,2)` holding a single cell at (0,0) with colspan 2 whose
child wants width 10 sizes its columns to `[5, 5]`; and in general one
distribution step of `precalc` raises every spanned column by the floor
share `(w - tot) / span` plus one extra unit for the `(w - tot) % span`
rightmost spanned columns (the leftmost spanned column never receives the
remainder), leaving other columns unchanged and making the spanned columns
sum to exactly the child's requested extent. -/
theorem grid_colspan_sizing :
    Grid.precalcCws 2 [[some ⟨0, 2, 1, 10, 1⟩, none], [none, none]] = [5, 5]
    ∧ ∀ (cws : List Nat) (i span w : Nat), 1 ≤ span → i + span ≤ cws.length →
        sumSpan cws i span < w →
        (∀ p, p < cws.length →
          (Grid.distribute cws i span w).getD p 0
            = cws.getD p 0
              + (if i ≤ p ∧ p < i + span then
                  (w - sumSpan cws i span) / span
                    + (if span - (w - sumSpan cws i span) % span ≤ p - i then 1 else 0)
                 else 0))
        ∧ sumSpan (Grid.distribute cws i span w) i span = w :=
  ⟨by decide, fun cws i span w h1 h2 h3 =>
    ⟨distribute_getD cws i span w h1 h2 h3, distribute_sumSpan cws i span w h1 h2 h3⟩⟩

theorem grid_colspan_sizing_witness :
    1 ≤ 2 ∧ 0 + 2 ≤ ([0, 0] : List Nat).length ∧ sumSpan [0, 0] 0 2 < 10
    ∧ ((∀ p, p < ([0, 0] : List Nat).length →
        (Grid.distribute [0, 0] 0 2 10).getD p 0
          = ([0, 0] : List Nat).getD p 0
            + (if 0 ≤ p ∧ p < 0 + 2 then
                (10 - sumSpan [0, 0] 0 2) / 2
                  + (if 2 - (10 - sumSpan [0, 0] 0 2) % 2 ≤ p - 0 then 1 else 0)
               else 0))
       ∧ sumSpan (Grid.distribute [0, 0] 0 2 10) 0 2 = 10) :=
  ⟨by decide, by decide, by decide,
    grid_colspan_sizing.2 [0, 0] 0 2 10 (by decide) (by decide) (by decide)⟩

end Wytch
